import Mathlib

/-!
Shallow embedding of the mapping-driven transformation core of the
Data-Migration-CoreBanking repository (src/etl_scripts/customer_prof_tbl.py
and src/etl_scripts/customer_tbl.py), together with proofs settling the
frozen claims about it.

A pandas row / Python dict is modelled as an ordered association list
`Record = List (String × Value)`.  `Value` models the Python/pandas values
that flow through the transform: strings, integers, booleans,
`pd.Timestamp`, the missing-value markers (`None` / `NaN` / `NaT`, all
collapsed into `Value.null`, which is what `pd.isna` recognises), Python
lists and dicts, and arbitrary other objects carrying their `str()`
representation.  Finite floating-point numbers are not given a separate
constructor: no claim depends on float arithmetic, the float null `NaN`
is `Value.null`, and finite numeric payloads are carried by `int`.
-/

set_option autoImplicit false

namespace Migration

mutual
/-- A Python/pandas value as it appears inside a row of the ETL transform. -/
inductive Value : Type where
  | str (s : String)
  | int (n : Int)
  | bool (b : Bool)
  /-- A `pd.Timestamp` with year, month, day, hour, minute, second. -/
  | timestamp (y mo d hh mi ss : Nat)
  /-- The missing-value marker: `None`, float `NaN`, or `pd.NaT`. -/
  | null
  | vlist (vs : VList)
  | vdict (ps : VDict)
  /-- Any other Python object, carrying its `str()` representation. -/
  | other (s : String)
  deriving DecidableEq

/-- A Python list of values. -/
inductive VList : Type where
  | nil
  | cons (v : Value) (vs : VList)
  deriving DecidableEq

/-- A Python dict with string keys. -/
inductive VDict : Type where
  | nil
  | cons (k : String) (v : Value) (ps : VDict)
  deriving DecidableEq
end

/-- A pandas row (or Python dict built from one): an ordered association list. -/
abbrev Record := List (String × Value)

/-- Dict/Series lookup by key, first matching entry (`row.get(k)` / `row[k]`). -/
def getVal (r : Record) (k : String) : Option Value :=
  (r.find? (fun p => p.1 == k)).map Prod.snd

/-- Key-membership test (`k in row` / `col in df.columns`). -/
def hasKeyB (r : Record) (k : String) : Bool :=
  r.any (fun p => p.1 == k)

/-- Is the value the scalar missing-value marker?  (`pd.isna` on a scalar.) -/
def isnaScalar : Value → Bool
  | .null => true
  | _ => false

/-- Is the value a sequence that `pd.isna` maps elementwise (a Python list,
which `np.asarray` turns into an array)?  Dicts are scalars for `pd.isna`. -/
def isSeqB : Value → Bool
  | .vlist _ => true
  | _ => false

/-- Models `pd.isna(value)` used in boolean position (`if pd.isna(value):`).
On a scalar it returns a single boolean.  On a list, `pd.isna` returns a
boolean array; using that array as a condition raises
`ValueError: the truth value of an array ... is ambiguous` unless the array
has exactly one element (a one-element list of a scalar).  The empty list is
also modelled as raising, matching current numpy behaviour. -/
def pdIsna : Value → Except String Bool
  | .vlist (.cons w .nil) =>
      if isSeqB w then .error "ambiguous truth value of a multi-dimensional array"
      else .ok (isnaScalar w)
  | .vlist _ => .error "the truth value of an array is ambiguous"
  | v => .ok (isnaScalar v)

/-- True when `if pd.isna(value):` evaluates without raising. -/
def isnaSafe : Value → Bool
  | .vlist (.cons w .nil) => !isSeqB w
  | .vlist _ => false
  | _ => true

/-- The boolean `pd.isna` yields when it does not raise. -/
def isnaB : Value → Bool
  | .vlist (.cons w .nil) => isnaScalar w
  | .vlist _ => false
  | v => isnaScalar v

/-- Models `isinstance(value, (str, int, float, bool, list, dict, type(None)))`
on line 123 of customer_prof_tbl.py.  The embedding has no separate float
constructor: the float null `NaN` is `Value.null` (accepted, like `NoneType`)
and finite numbers are carried by `int` (accepted). -/
def serializableB : Value → Bool
  | .str _ => true
  | .int _ => true
  | .bool _ => true
  | .null => true
  | .vlist _ => true
  | .vdict _ => true
  | .timestamp _ _ _ _ _ _ => false
  | .other _ => false

/-- Left-pad the decimal representation of `n` with zeros to width `w`. -/
def padNum (w n : Nat) : String :=
  let s := toString n
  if s.length < w then String.mk (List.replicate (w - s.length) '0') ++ s else s

/-- The `strftime` format string used by the code: `%Y-%m-%d`. -/
def fmtDate (y mo d : Nat) : String :=
  padNum 4 y ++ "-" ++ padNum 2 mo ++ "-" ++ padNum 2 d

mutual
/-- Python `repr` of a value (elements of lists/dicts print with `repr`). -/
def pyRepr : Value → String
  | .str s => "'" ++ s ++ "'"
  | .int n => toString n
  | .bool b => if b then "True" else "False"
  | .timestamp y mo d hh mi ss =>
      "Timestamp('" ++ fmtDate y mo d ++ " " ++ padNum 2 hh ++ ":" ++
        padNum 2 mi ++ ":" ++ padNum 2 ss ++ "')"
  | .null => "nan"
  | .vlist vs => "[" ++ pyReprList vs ++ "]"
  | .vdict ps => "\x7b" ++ pyReprDict ps ++ "\x7d"
  | .other s => s

def pyReprList : VList → String
  | .nil => ""
  | .cons v .nil => pyRepr v
  | .cons v vs => pyRepr v ++ ", " ++ pyReprList vs

def pyReprDict : VDict → String
  | .nil => ""
  | .cons k v .nil => "'" ++ k ++ "': " ++ pyRepr v
  | .cons k v ps => "'" ++ k ++ "': " ++ pyRepr v ++ ", " ++ pyReprDict ps
end

/-- Python `str()` of a value (`str(value)` on line 124, `.astype(str)` on
line 183 of customer_prof_tbl.py).  `str()` agrees with `repr()` on the types
here except strings (returned verbatim) and timestamps. -/
def pyStr : Value → String
  | .str s => s
  | .timestamp y mo d hh mi ss =>
      fmtDate y mo d ++ " " ++ padNum 2 hh ++ ":" ++ padNum 2 mi ++ ":" ++ padNum 2 ss
  | v => pyRepr v

/-- Step 1 of the build_json loop body: `if isinstance(value, pd.Timestamp):
value = value.strftime('%Y-%m-%d')`. -/
def tsToStr : Value → Value
  | .timestamp y mo d _ _ _ => .str (fmtDate y mo d)
  | v => v

/-- The body of the `for field in json_fields` loop of `build_json`
(customer_prof_tbl.py lines 114-124), normalising one resolved value:
timestamps format to `YYYY-MM-DD`, missing values become `""`, and
non-serializable values are coerced with `str()`.  Raises (returns
`.error`) exactly when `if pd.isna(value):` raises. -/
def normalizeValue (v : Value) : Except String Value :=
  let v1 := tsToStr v
  match pdIsna v1 with
  | .error e => .error e
  | .ok b =>
    let v2 := if b then Value.str "" else v1
    .ok (if serializableB v2 then v2 else Value.str (pyStr v2))

/-- Value resolution `row.get(field, defaults.get(field, ""))`
(customer_prof_tbl.py line 112). -/
def resolve (row defaults : Record) (f : String) : Value :=
  (getVal row f).getD ((getVal defaults f).getD (Value.str ""))

/-- Python dict assignment `structured_json[field] = value`: replace the
binding when the key is present, append it otherwise (insertion order). -/
def insertOrd (d : Record) (k : String) (v : Value) : Record :=
  if hasKeyB d k then d.map (fun p => if p.1 == k then (k, v) else p)
  else d ++ [(k, v)]

/-- The `for field in json_fields` loop of `build_json`, threading the
`structured_json` accumulator. -/
def buildAux (row defaults : Record) : List String → Record → Except String Record
  | [], acc => .ok acc
  | f :: fs, acc =>
    match normalizeValue (resolve row defaults f) with
    | .error e => .error e
    | .ok v => buildAux row defaults fs (insertOrd acc f v)

/-- `build_json(row, json_fields, defaults)` of customer_prof_tbl.py
(lines 103-128): builds the ordered `customerProfileData` document. -/
def build_json (row : Record) (json_fields : List String) (defaults : Record) :
    Except String Record :=
  buildAux row defaults json_fields []

/-- The pure value `normalizeValue` returns whenever it does not raise. -/
def normTotal (v : Value) : Value :=
  let v1 := tsToStr v
  let v2 := if isnaB v1 then Value.str "" else v1
  if serializableB v2 then v2 else Value.str (pyStr v2)

/-- The pure `structured_json` accumulator fold, defined for inputs on which
`buildAux` does not raise. -/
def buildTotal (row defaults : Record) : List String → Record → Record
  | [], acc => acc
  | f :: fs, acc =>
      buildTotal row defaults fs (insertOrd acc f (normTotal (resolve row defaults f)))

/-! ### Field projection (customer_prof_tbl.py lines 144-162,
customer_tbl.py lines 90-103) -/

/-- `df.rename(columns=m)` applied to one column name: the destination name
when the source name is a key of the rename table, the name itself otherwise. -/
def applyRename (rn : List (String × String)) (k : String) : String :=
  ((rn.find? (fun p => p.1 == k)).map Prod.snd).getD k

/-- `df.rename(columns=rn)` on a row: every key is renamed, values unchanged. -/
def renameRecord (rn : List (String × String)) (r : Record) : Record :=
  r.map (fun p => (applyRename rn p.1, p.2))

/-- The required destination-column set
`set(map.values()).union(set(defaults.keys()))` (line 148), as a
duplicate-free list. -/
def requiredCols (rn : List (String × String)) (defaults : Record) : List String :=
  (rn.map Prod.snd ++ defaults.map Prod.fst).dedup

/-- The fill loop (lines 152-154): for every required column not present in
the renamed frame, add it with value `defaults.get(column, "")`. -/
def fillDefaults (rn : List (String × String)) (defaults : Record) (r : Record) : Record :=
  r ++ ((requiredCols rn defaults).filter (fun c => !hasKeyB r c)).map
    (fun c => (c, (getVal defaults c).getD (Value.str "")))

/-- Column selection `df[list(cols)]` (line 161): for each name in `cols`,
keep every column of that name, grouped in selection-list order. -/
def projectCols (cols : List String) (r : Record) : Record :=
  cols.flatMap (fun c => r.filter (fun p => p.1 == c))

/-- The full field projection of one record: rename, fill required columns
with defaults, restrict to the required destination-column set. -/
def projectRecord (rn : List (String × String)) (defaults : Record) (r : Record) : Record :=
  projectCols (requiredCols rn defaults) (fillDefaults rn defaults (renameRecord rn r))

/-! ### Record classifier (customer_prof_tbl.py lines 139-141) -/

/-- The boolean mask entry `df["customer_type"] == s` for one row: true
exactly when the discriminator is the string `s` (a missing or non-string
discriminator compares unequal). -/
def discB (r : Record) (s : String) : Bool :=
  match getVal r "customer_type" with
  | some (.str t) => t == s
  | _ => false

/-- `df[df["customer_type"] == "Individual"]` (line 140). -/
def indPartition (df : List Record) : List Record :=
  df.filter (fun r => discB r "Individual")

/-- `df[df["customer_type"] == "SME"]` (line 141). -/
def corpPartition (df : List Record) : List Record :=
  df.filter (fun r => discB r "SME")

/-! ### Consolidation (customer_prof_tbl.py lines 169-186) -/

/-- `pd.concat([df_ind, df_corp], ignore_index=True)` (line 170): Individual
rows first, Corporate rows after, each keeping its within-category order,
with a fresh contiguous zero-based index. -/
def consolidate (ind corp : List Record) : List (Nat × Record) :=
  (ind ++ corp).enum

/-! ### Type normalization (customer_prof_tbl.py lines 172-183,
customer_tbl.py lines 106-110) -/

/-- Split a character list on a separator character (the groups between
separators, like `str.split(sep)`). -/
def splitOnChar (sep : Char) : List Char → List (List Char)
  | [] => [[]]
  | c :: cs =>
    let rest := splitOnChar sep cs
    if c = sep then [] :: rest
    else
      match rest with
      | [] => [[c]]
      | g :: gs => (c :: g) :: gs

/-- The numeric value of a decimal digit character. -/
def digitVal? (c : Char) : Option Nat :=
  if '0' ≤ c ∧ c ≤ '9' then some (c.toNat - 48) else none

/-- The natural number denoted by a digit string (most significant first). -/
def natOfDigits : Nat → List Char → Option Nat
  | acc, [] => some acc
  | acc, c :: cs =>
    match digitVal? c with
    | none => none
    | some d => natOfDigits (acc * 10 + d) cs

/-- A fixed-width all-digit numeric field. -/
def parseNatField (w : Nat) (cs : List Char) : Option Nat :=
  if cs.length == w then natOfDigits 0 cs else none

/-- Models the library datetime parser (`pd.to_datetime`) on an ISO-8601
date component `YYYY-MM-DD`. -/
def parseYMD (cs : List Char) : Option (Nat × Nat × Nat) :=
  match splitOnChar '-' cs with
  | [ys, ms, ds] =>
    match parseNatField 4 ys, parseNatField 2 ms, parseNatField 2 ds with
    | some y, some m, some d =>
        if 1 ≤ m && m ≤ 12 && 1 ≤ d && d ≤ 31 then some (y, m, d) else none
    | _, _, _ => none
  | _ => none

/-- Models the library datetime parser on a time component `HH:MM:SS`. -/
def parseHMS (cs : List Char) : Option (Nat × Nat × Nat) :=
  match splitOnChar ':' cs with
  | [hs, ms, ss] =>
    match parseNatField 2 hs, parseNatField 2 ms, parseNatField 2 ss with
    | some h, some m, some sec =>
        if h ≤ 23 && m ≤ 59 && sec ≤ 59 then some (h, m, sec) else none
    | _, _, _ => none
  | _ => none

/-- Split an ISO date-time string at its `T` or space separator. -/
def splitDateTime (cs : List Char) : List (List Char) :=
  if (splitOnChar 'T' cs).length == 2 then splitOnChar 'T' cs else splitOnChar ' ' cs

/-- Models the library's string parse inside `pd.to_datetime`: ISO-8601
dates and date-times; every other shape is modelled as unparseable. -/
def parseDateString (s : String) : Option (Nat × Nat × Nat × Nat × Nat × Nat) :=
  match splitDateTime s.toList with
  | [d] => (parseYMD d).map (fun p => (p.1, p.2.1, p.2.2, 0, 0, 0))
  | [d, t] =>
    match parseYMD d, parseHMS t with
    | some p, some q => some (p.1, p.2.1, p.2.2, q.1, q.2.1, q.2.2)
    | _, _ => none
  | _ => none

/-- The parseable values of the `pd.to_datetime` call on one cell: existing
timestamps pass through, ISO strings parse, everything else (including the
missing-value marker) is unparseable. -/
def parseDatetime : Value → Option (Nat × Nat × Nat × Nat × Nat × Nat)
  | .timestamp y mo d hh mi ss => some (y, mo, d, hh, mi, ss)
  | .str s => parseDateString s
  | _ => none

/-- `pd.to_datetime(x, errors='coerce')` on one cell (line 176): a parseable
value becomes a canonical timestamp, an unparseable one becomes the null
timestamp marker `NaT`; parse failure is coerced, never raised. -/
def toDatetimeCoerce (v : Value) : Value :=
  match parseDatetime v with
  | some (y, mo, d, hh, mi, ss) => .timestamp y mo d hh mi ss
  | none => .null

/-- The designated temporal columns (line 173). -/
def datetime_columns : List String := ["createdAt", "updatedAt"]

/-- The loop on lines 174-176: coerce the designated temporal columns of a
row to datetimes. -/
def normalizeDatetimeCols (r : Record) : Record :=
  r.map (fun p =>
    if datetime_columns.contains p.1 then (p.1, toDatetimeCoerce p.2) else p)

/-- The designated identifier columns converted to text (line 180). -/
def int_to_str_columns : List String := ["customerNumber", "bvn"]

/-- The loop on lines 181-183: `df[col] = df[col].astype(str)` on the
designated identifier columns, i.e. elementwise Python `str()`. -/
def astypeStrCols (r : Record) : Record :=
  r.map (fun p =>
    if int_to_str_columns.contains p.1 then (p.1, Value.str (pyStr p.2)) else p)

/-! ### Left join (customer_prof_tbl.py line 137, customer_tbl.py line 84) -/

/-- The join-key value of a row. -/
def keyOf (key : String) (r : Record) : Option Value := getVal r key

/-- The right-table rows matching a left row's key.  pandas `merge` matches
equal key values (missing markers match each other). -/
def joinMatches (key : String) (rs : List Record) (l : Record) : List Record :=
  rs.filter (fun r => decide (keyOf key r = keyOf key l))

/-- Drop the join-key column from a right row (the merged frame carries the
key column once, from the left side). -/
def stripKey (key : String) (r : Record) : Record :=
  r.filter (fun p => !(p.1 == key))

/-- The right-table columns (minus the key), all null — what an unmatched
left row receives in a left join. -/
def nullRight (key : String) (rcols : List String) : Record :=
  (rcols.filter (fun c => !(c == key))).map (fun c => (c, Value.null))

/-- The single merged row a left row produces when the right key is unique:
its own columns followed by the matching right row's non-key columns, or by
all-null right columns when there is no match. -/
def joinRow (key : String) (rcols : List String) (rs : List Record) (l : Record) : Record :=
  match joinMatches key rs l with
  | [] => l ++ nullRight key rcols
  | r :: _ => l ++ stripKey key r

/-- `pd.merge(ls, rs, on=key, how='left')` (line 137): every left row is
kept; a left row with matching right rows produces one merged row per match,
a left row with no match produces one row with null right columns.
`rcols` is the right table's column schema. -/
def leftJoin (key : String) (rcols : List String) (ls rs : List Record) : List Record :=
  ls.flatMap (fun l =>
    match joinMatches key rs l with
    | [] => [l ++ nullRight key rcols]
    | ms => ms.map (fun r => l ++ stripKey key r))

/-! ### Basic lookup lemmas -/

theorem getVal_cons (k' k : String) (v : Value) (r : Record) :
    getVal ((k', v) :: r) k = if (k' == k) then some v else getVal r k := by
  cases h : (k' == k) <;> simp [getVal, List.find?_cons, h]

theorem hasKeyB_cons (k' k : String) (v : Value) (r : Record) :
    hasKeyB ((k', v) :: r) k = ((k' == k) || hasKeyB r k) := by
  simp [hasKeyB, List.any_cons]

theorem hasKeyB_eq_isSome (r : Record) (k : String) :
    hasKeyB r k = (getVal r k).isSome := by
  induction r with
  | nil => rfl
  | cons p r ih =>
    obtain ⟨k', v⟩ := p
    rw [hasKeyB_cons, getVal_cons]
    cases h : (k' == k) <;> simp [h, ih]

theorem getVal_eq_none_of_hasKeyB (r : Record) (k : String) (h : hasKeyB r k = false) :
    getVal r k = none := by
  rw [hasKeyB_eq_isSome] at h
  exact Option.not_isSome_iff_eq_none.mp (by simp [h])

theorem hasKeyB_append (a b : Record) (k : String) :
    hasKeyB (a ++ b) k = (hasKeyB a k || hasKeyB b k) := by
  simp [hasKeyB, List.any_append]

theorem getVal_append (a b : Record) (k : String) :
    getVal (a ++ b) k = if hasKeyB a k then getVal a k else getVal b k := by
  induction a with
  | nil => simp [hasKeyB, getVal]
  | cons p a ih =>
    obtain ⟨k', v⟩ := p
    rw [List.cons_append, getVal_cons, getVal_cons, hasKeyB_cons]
    cases h : (k' == k) <;> simp [h, ih]

theorem getVal_map_entry (g : String → Value → Value) (r : Record) (k : String) :
    getVal (r.map (fun p => (p.1, g p.1 p.2))) k = (getVal r k).map (g k) := by
  induction r with
  | nil => rfl
  | cons p r ih =>
    obtain ⟨k', v⟩ := p
    rw [List.map_cons, getVal_cons, getVal_cons]
    cases h : (k' == k)
    · simp [h, ih]
    · have hk : k' = k := eq_of_beq h
      subst hk
      simp

theorem getVal_map_pair_mem (cs : List String) (g : String → Value) (k : String)
    (h : k ∈ cs) : getVal (cs.map (fun c => (c, g c))) k = some (g k) := by
  induction cs with
  | nil => cases h
  | cons c cs ih =>
    rw [List.map_cons, getVal_cons]
    cases hc : (c == k)
    · have : k ∈ cs := by
        cases h with
        | head => simp at hc
        | tail _ h => exact h
      simp [ih this]
    · have : c = k := eq_of_beq hc
      subst this
      simp

/-- Filtering a record to a key keeps exactly that key's first binding first. -/
theorem getVal_filter_self (r : Record) (k : String) :
    getVal (r.filter (fun p => p.1 == k)) k = getVal r k := by
  induction r with
  | nil => rfl
  | cons p r ih =>
    obtain ⟨k', v⟩ := p
    rw [getVal_cons]
    cases h : (k' == k)
    · simp only [List.filter_cons, h]
      simpa [h] using ih
    · simp only [List.filter_cons, h]
      simp [getVal_cons, h]

theorem getVal_filter_other (r : Record) (c k : String) (h : (c == k) = false) :
    getVal (r.filter (fun p => p.1 == c)) k = none := by
  induction r with
  | nil => rfl
  | cons p r ih =>
    obtain ⟨k', v⟩ := p
    cases h' : (k' == c)
    · simpa [List.filter_cons, h'] using ih
    · have hc2 : k' = c := eq_of_beq h'
      subst hc2
      simp [List.filter_cons, h', getVal_cons, h, ih]

/-! ### Projection lemmas -/

theorem projectCols_cons (c : String) (cs : List String) (r : Record) :
    projectCols (c :: cs) r = r.filter (fun p => p.1 == c) ++ projectCols cs r := by
  simp [projectCols]

theorem getVal_projectCols_not_mem (cols : List String) (r : Record) (k : String)
    (h : k ∉ cols) : getVal (projectCols cols r) k = none := by
  induction cols with
  | nil => rfl
  | cons c cs ih =>
    have hck : (c == k) = false := by
      rw [beq_eq_false_iff_ne]
      intro hc
      exact h (hc ▸ List.mem_cons_self c cs)
    have h1 : getVal (r.filter (fun p => p.1 == c)) k = none :=
      getVal_filter_other r c k hck
    have h2 : hasKeyB (r.filter (fun p => p.1 == c)) k = false := by
      rw [hasKeyB_eq_isSome, h1]; rfl
    rw [projectCols_cons, getVal_append, h2]
    simp only [Bool.false_eq_true, if_false]
    exact ih (fun hm => h (List.mem_cons_of_mem c hm))

theorem getVal_projectCols_mem (cols : List String) (r : Record) (k : String)
    (h : k ∈ cols) : getVal (projectCols cols r) k = getVal r k := by
  induction cols with
  | nil => cases h
  | cons c cs ih =>
    rw [projectCols_cons, getVal_append]
    by_cases hck : c = k
    · subst hck
      cases hg : hasKeyB (r.filter (fun p => p.1 == c)) c
      · have hnone : getVal (r.filter (fun p => p.1 == c)) c = none := by
          rw [hasKeyB_eq_isSome] at hg
          exact Option.not_isSome_iff_eq_none.mp (by simp [hg])
        have hr : getVal r c = none := by
          rw [← getVal_filter_self r c]; exact hnone
        simp only [Bool.false_eq_true, if_false]
        by_cases hcs : c ∈ cs
        · rw [ih hcs]
        · rw [getVal_projectCols_not_mem cs r c hcs, hr]
      · simp only [if_true]
        exact getVal_filter_self r c
    · have hck' : (c == k) = false := by rw [beq_eq_false_iff_ne]; exact hck
      have h2 : hasKeyB (r.filter (fun p => p.1 == c)) k = false := by
        rw [hasKeyB_eq_isSome, getVal_filter_other r c k hck']; rfl
      rw [h2]
      simp only [Bool.false_eq_true, if_false]
      exact ih (by
        cases h with
        | head => exact absurd rfl hck
        | tail _ hm => exact hm)

theorem hasKeyB_fillDefaults (rn : List (String × String)) (defaults : Record)
    (r : Record) (k : String) (hk : k ∈ requiredCols rn defaults) :
    hasKeyB (fillDefaults rn defaults r) k = true := by
  rw [fillDefaults, hasKeyB_append]
  cases hr : hasKeyB r k
  · have hmem : k ∈ (requiredCols rn defaults).filter (fun c => !hasKeyB r c) :=
      List.mem_filter.mpr ⟨hk, by simp [hr]⟩
    have hv := getVal_map_pair_mem _ (fun c => (getVal defaults c).getD (Value.str "")) k hmem
    rw [hasKeyB_eq_isSome, hv]
    simp
  · simp

theorem getVal_fillDefaults_absent (rn : List (String × String)) (defaults : Record)
    (r : Record) (k : String) (hk : k ∈ requiredCols rn defaults)
    (hr : hasKeyB r k = false) :
    getVal (fillDefaults rn defaults r) k =
      some ((getVal defaults k).getD (Value.str "")) := by
  rw [fillDefaults, getVal_append, hr]
  simp only [Bool.false_eq_true, if_false]
  exact getVal_map_pair_mem _ _ k (List.mem_filter.mpr ⟨hk, by simp [hr]⟩)

theorem hasKeyB_projectRecord (rn : List (String × String)) (defaults : Record)
    (r : Record) (k : String) :
    hasKeyB (projectRecord rn defaults r) k = true ↔ k ∈ requiredCols rn defaults := by
  constructor
  · intro h
    by_contra hk
    rw [projectRecord, hasKeyB_eq_isSome, getVal_projectCols_not_mem _ _ _ hk] at h
    simp at h
  · intro hk
    rw [projectRecord, hasKeyB_eq_isSome, getVal_projectCols_mem _ _ _ hk]
    have h2 := hasKeyB_fillDefaults rn defaults (renameRecord rn r) k hk
    rw [hasKeyB_eq_isSome] at h2
    exact h2

/-! ### Classifier lemmas -/

theorem discB_true_iff (r : Record) (s : String) :
    discB r s = true ↔ getVal r "customer_type" = some (Value.str s) := by
  unfold discB
  cases hg : getVal r "customer_type" with
  | none => simp
  | some v => cases v <;> simp

theorem discB_eq_of_true (r : Record) (s s' : String) (h : discB r s = true)
    (h' : discB r s' = true) : s = s' := by
  rw [discB_true_iff] at h h'
  rw [h] at h'
  exact Value.str.inj (Option.some.inj h')

theorem length_filter_disjoint (l : List Record) (p q : Record → Bool)
    (h : ∀ r, ¬(p r = true ∧ q r = true)) :
    (l.filter p).length + (l.filter q).length ≤ l.length := by
  induction l with
  | nil => simp
  | cons a l ih =>
    rw [List.filter_cons, List.filter_cons]
    cases hp : p a
    · cases hq : q a
      · rw [if_neg (by simp), if_neg (by simp)]
        exact Nat.le_succ_of_le ih
      · rw [if_neg (by simp), if_pos rfl]
        simp only [List.length_cons]
        omega
    · cases hq : q a
      · rw [if_pos rfl, if_neg (by simp)]
        simp only [List.length_cons]
        omega
      · exact absurd ⟨hp, hq⟩ (h a)

/-! ### Enumeration helper -/

theorem consolidate_length (ind corp : List Record) :
    (consolidate ind corp).length = ind.length + corp.length := by
  simp [consolidate]

/-! ### Claim theorems: projection, classifier, consolidation -/

/-- C1: for every mapping spec (rename table, defaults table) and every
source record, the projected record's key set is exactly
`rename.values() ∪ defaults.keys()` (the `requiredCols` set): every field of
the set is present, a field absent after rename carries
`defaults.get(field, "")` — the empty string when no default is declared —
and no field outside the set remains. -/
theorem claim_C1_projection_key_set (rn : List (String × String)) (defaults r : Record) :
    (∀ k, hasKeyB (projectRecord rn defaults r) k = true ↔ k ∈ requiredCols rn defaults) ∧
    (∀ k, k ∈ requiredCols rn defaults → hasKeyB (renameRecord rn r) k = false →
      getVal (projectRecord rn defaults r) k =
        some ((getVal defaults k).getD (Value.str ""))) := by
  refine ⟨hasKeyB_projectRecord rn defaults r, fun k hk hr => ?_⟩
  rw [projectRecord, getVal_projectCols_mem _ _ _ hk]
  exact getVal_fillDefaults_absent rn defaults _ k hk hr

/-- Witness for C1 at the spec's concrete scenario: rename
`cust_name → customerName`, defaults `customerName → "Unknown"`,
`status → "ACTIVE"`, record `{cust_name: "Acme", customer_type: "SME"}`:
the `status` field is present and carries the default `"ACTIVE"`. -/
theorem claim_C1_projection_key_set_witness :
    hasKeyB (projectRecord [("cust_name", "customerName")]
      [("customerName", Value.str "Unknown"), ("status", Value.str "ACTIVE")]
      [("cust_name", Value.str "Acme"), ("customer_type", Value.str "SME")]) "status" = true ∧
    getVal (projectRecord [("cust_name", "customerName")]
      [("customerName", Value.str "Unknown"), ("status", Value.str "ACTIVE")]
      [("cust_name", Value.str "Acme"), ("customer_type", Value.str "SME")]) "status" =
      some (Value.str "ACTIVE") := by
  constructor
  · exact ((claim_C1_projection_key_set [("cust_name", "customerName")]
      [("customerName", Value.str "Unknown"), ("status", Value.str "ACTIVE")]
      [("cust_name", Value.str "Acme"), ("customer_type", Value.str "SME")]).1
        "status").mpr (by decide)
  · have h := (claim_C1_projection_key_set [("cust_name", "customerName")]
      [("customerName", Value.str "Unknown"), ("status", Value.str "ACTIVE")]
      [("cust_name", Value.str "Acme"), ("customer_type", Value.str "SME")]).2
        "status" (by decide) (by decide)
    rw [h]
    rfl

/-- C4: the classifier sends a record with discriminator `"Individual"` only
to the Individual partition, one with `"SME"` only to the Corporate
partition, and one with any other discriminator value to neither; the two
partitions together never exceed the input row count. -/
theorem claim_C4_classifier (df : List Record) (r : Record) (hr : r ∈ df) :
    (discB r "Individual" = true → r ∈ indPartition df ∧ r ∉ corpPartition df) ∧
    (discB r "SME" = true → r ∈ corpPartition df ∧ r ∉ indPartition df) ∧
    (discB r "Individual" = false → discB r "SME" = false →
      r ∉ indPartition df ∧ r ∉ corpPartition df) ∧
    (indPartition df).length + (corpPartition df).length ≤ df.length := by
  refine ⟨fun hI => ⟨?_, ?_⟩, fun hS => ⟨?_, ?_⟩, fun hI hS => ⟨?_, ?_⟩, ?_⟩
  · exact List.mem_filter.mpr ⟨hr, hI⟩
  · intro hm
    have hS := (List.mem_filter.mp hm).2
    exact absurd (discB_eq_of_true r _ _ hI hS) (by decide)
  · exact List.mem_filter.mpr ⟨hr, hS⟩
  · intro hm
    have hI := (List.mem_filter.mp hm).2
    exact absurd (discB_eq_of_true r _ _ hI hS) (by decide)
  · intro hm
    exact absurd (List.mem_filter.mp hm).2 (by simp [hI])
  · intro hm
    exact absurd (List.mem_filter.mp hm).2 (by simp [hS])
  · exact length_filter_disjoint df _ _ (fun s ⟨h1, h2⟩ =>
      absurd (discB_eq_of_true s _ _ h1 h2) (by decide))

/-- Witness for C4: in a three-row input holding one `"Individual"` row, one
`"SME"` row and one `"Retail"` row, the Individual row lands in the
Individual partition and not in the Corporate one, and the partition sizes
sum to at most the input size. -/
theorem claim_C4_classifier_witness :
    [("customer_type", Value.str "Individual")] ∈
      indPartition [[("customer_type", Value.str "Individual")],
        [("customer_type", Value.str "SME")], [("customer_type", Value.str "Retail")]] ∧
    [("customer_type", Value.str "Individual")] ∉
      corpPartition [[("customer_type", Value.str "Individual")],
        [("customer_type", Value.str "SME")], [("customer_type", Value.str "Retail")]] ∧
    (indPartition [[("customer_type", Value.str "Individual")],
        [("customer_type", Value.str "SME")], [("customer_type", Value.str "Retail")]]).length +
      (corpPartition [[("customer_type", Value.str "Individual")],
        [("customer_type", Value.str "SME")], [("customer_type", Value.str "Retail")]]).length ≤ 3 := by
  have h := claim_C4_classifier
    [[("customer_type", Value.str "Individual")],
      [("customer_type", Value.str "SME")], [("customer_type", Value.str "Retail")]]
    [("customer_type", Value.str "Individual")] (by decide)
  have h1 := h.1 (by decide)
  exact ⟨h1.1, h1.2, h.2.2.2⟩

/-- C5: consolidation concatenates the Individual rows before the Corporate
rows, keeps each category's internal order, and assigns a fresh contiguous
zero-based index: the indices are `0 .. n-1`, row `i` (for `i` below the
Individual count) is the `i`-th Individual row, and row `|ind| + j` is the
`j`-th Corporate row. -/
theorem claim_C5_consolidate (ind corp : List Record) :
    (consolidate ind corp).length = ind.length + corp.length ∧
    (consolidate ind corp).map Prod.fst = List.range (ind.length + corp.length) ∧
    (∀ i, i < ind.length →
      (consolidate ind corp)[i]? = (ind[i]?).map (fun r => (i, r))) ∧
    (∀ j, j < corp.length →
      (consolidate ind corp)[ind.length + j]? =
        (corp[j]?).map (fun r => (ind.length + j, r))) := by
  refine ⟨consolidate_length ind corp, ?_, fun i hi => ?_, fun j hj => ?_⟩
  · rw [consolidate, List.enum_map_fst, List.length_append]
  · rw [consolidate, List.getElem?_enum, List.getElem?_append, if_pos hi]
  · rw [consolidate, List.getElem?_enum, List.getElem?_append,
      if_neg (by omega), Nat.add_sub_cancel_left]

/-- Witness for C5 at the spec's 3-and-2 scenario: with three Individual
rows and two Corporate rows the result has five rows; row 2 is the third
Individual row and row 4 (index `3 + 1`) is the second Corporate row. -/
theorem claim_C5_consolidate_witness :
    (consolidate [[("id", Value.int 1)], [("id", Value.int 2)], [("id", Value.int 3)]]
        [[("id", Value.int 4)], [("id", Value.int 5)]]).length = 5 ∧
    (consolidate [[("id", Value.int 1)], [("id", Value.int 2)], [("id", Value.int 3)]]
        [[("id", Value.int 4)], [("id", Value.int 5)]])[2]? =
      some (2, [("id", Value.int 3)]) ∧
    (consolidate [[("id", Value.int 1)], [("id", Value.int 2)], [("id", Value.int 3)]]
        [[("id", Value.int 4)], [("id", Value.int 5)]])[3 + 1]? =
      some (3 + 1, [("id", Value.int 5)]) := by
  have h := claim_C5_consolidate
    [[("id", Value.int 1)], [("id", Value.int 2)], [("id", Value.int 3)]]
    [[("id", Value.int 4)], [("id", Value.int 5)]]
  refine ⟨h.1, ?_, ?_⟩
  · exact (h.2.2.1 2 (by decide)).trans rfl
  · exact (h.2.2.2 1 (by decide)).trans rfl

/-! ### Dict-insertion lemmas -/

theorem getVal_replace (d : Record) (k : String) (v : Value) (h : hasKeyB d k = true) :
    getVal (d.map (fun p => if p.1 == k then (k, v) else p)) k = some v := by
  induction d with
  | nil => cases h
  | cons p d ih =>
    obtain ⟨k', w⟩ := p
    rw [List.map_cons]
    cases hk : (k' == k)
    · rw [hasKeyB_cons, hk] at h
      simp only [Bool.false_or] at h
      simp only [hk, Bool.false_eq_true, if_false]
      rw [getVal_cons, hk]
      simp only [Bool.false_eq_true, if_false]
      exact ih h
    · simp only [hk, if_true]
      rw [getVal_cons]
      simp

theorem getVal_replace_ne (d : Record) (k' k : String) (v : Value)
    (h : (k' == k) = false) :
    getVal (d.map (fun p => if p.1 == k' then (k', v) else p)) k = getVal d k := by
  induction d with
  | nil => rfl
  | cons p d ih =>
    obtain ⟨a, w⟩ := p
    rw [List.map_cons]
    cases ha : (a == k')
    · simp only [ha, Bool.false_eq_true, if_false]
      rw [getVal_cons, getVal_cons]
      cases hak : (a == k)
      · simp only [Bool.false_eq_true, if_false]
        exact ih
      · simp only [if_true]
    · have : a = k' := eq_of_beq ha
      subst this
      simp only [ha, if_true]
      rw [getVal_cons, getVal_cons, h]
      simp only [Bool.false_eq_true, if_false]
      exact ih

theorem getVal_insertOrd_self (d : Record) (k : String) (v : Value) :
    getVal (insertOrd d k v) k = some v := by
  unfold insertOrd
  cases h : hasKeyB d k
  · rw [if_neg (by simp), getVal_append, h]
    simp only [Bool.false_eq_true, if_false]
    rw [getVal_cons]
    simp
  · rw [if_pos rfl]
    exact getVal_replace d k v h

theorem getVal_insertOrd_ne (d : Record) (k' k : String) (v : Value)
    (h : (k' == k) = false) :
    getVal (insertOrd d k' v) k = getVal d k := by
  unfold insertOrd
  cases hh : hasKeyB d k'
  · rw [if_neg (by simp), getVal_append]
    cases hdk : hasKeyB d k
    · rw [if_neg (by simp), getVal_cons, h]
      simp only [Bool.false_eq_true, if_false]
      rw [getVal_eq_none_of_hasKeyB d k hdk]
      rfl
    · rw [if_pos rfl]
  · rw [if_pos rfl]
    exact getVal_replace_ne d k' k v h

theorem mem_insertOrd (d : Record) (k : String) (v : Value) (p : String × Value)
    (hp : p ∈ insertOrd d k v) : p ∈ d ∨ p = (k, v) := by
  unfold insertOrd at hp
  by_cases h : hasKeyB d k = true
  · rw [if_pos h] at hp
    obtain ⟨q, hq, hmap⟩ := List.mem_map.mp hp
    by_cases hqk : (q.1 == k) = true
    · right
      rw [← hmap]
      simp [hqk]
    · left
      rw [← hmap]
      simp only [hqk, Bool.false_eq_true, if_false]
      exact hq
  · rw [if_neg h] at hp
    rcases List.mem_append.mp hp with h1 | h1
    · exact Or.inl h1
    · exact Or.inr (by simpa using h1)

/-! ### Normalization lemmas -/

/-- Is the value a timestamp? -/
def isTimestampB : Value → Bool
  | .timestamp _ _ _ _ _ _ => true
  | _ => false

theorem pdIsna_ok_of_safe : ∀ (v : Value), isnaSafe v = true → pdIsna v = .ok (isnaB v)
  | .str _, _ => rfl
  | .int _, _ => rfl
  | .bool _, _ => rfl
  | .timestamp _ _ _ _ _ _, _ => rfl
  | .null, _ => rfl
  | .vdict _, _ => rfl
  | .other _, _ => rfl
  | .vlist .nil, h => by simp [isnaSafe] at h
  | .vlist (.cons w .nil), h => by
      simp only [isnaSafe, Bool.not_eq_true'] at h
      simp only [pdIsna, isnaB, h, Bool.false_eq_true, if_false]
  | .vlist (.cons _ (.cons _ _)), h => by simp [isnaSafe] at h

theorem pdIsna_safe_of_ok : ∀ (v : Value) (b : Bool), pdIsna v = .ok b → isnaSafe v = true
  | .str _, _, _ => rfl
  | .int _, _, _ => rfl
  | .bool _, _, _ => rfl
  | .timestamp _ _ _ _ _ _, _, _ => rfl
  | .null, _, _ => rfl
  | .vdict _, _, _ => rfl
  | .other _, _, _ => rfl
  | .vlist .nil, b, h => by simp [pdIsna] at h
  | .vlist (.cons w .nil), b, h => by
      simp only [pdIsna] at h
      cases hw : isSeqB w
      · simp [isnaSafe, hw]
      · rw [if_pos (by rw [hw])] at h
        cases h
  | .vlist (.cons _ (.cons _ _)), b, h => by simp [pdIsna] at h

theorem isnaSafe_tsToStr (v : Value) : isnaSafe (tsToStr v) = isnaSafe v := by
  cases v <;> rfl

theorem normalizeValue_ok_of_safe (v : Value) (h : isnaSafe v = true) :
    normalizeValue v = .ok (normTotal v) := by
  rw [← isnaSafe_tsToStr] at h
  simp only [normalizeValue, normTotal, pdIsna_ok_of_safe _ h]

theorem normalizeValue_ok_eq (v w : Value) (h : normalizeValue v = .ok w) :
    w = normTotal v := by
  simp only [normalizeValue] at h
  cases hp : pdIsna (tsToStr v) with
  | error e => rw [hp] at h; cases h
  | ok b =>
    have hs : isnaSafe (tsToStr v) = true := pdIsna_safe_of_ok _ b hp
    have hb : b = isnaB (tsToStr v) := by
      have := pdIsna_ok_of_safe _ hs
      rw [hp] at this
      exact Except.ok.inj this
    rw [hp] at h
    subst hb
    simp only [normTotal]
    exact (Except.ok.inj h).symm

theorem normalizeValue_error_of_unsafe (v : Value) (h : isnaSafe v = false) :
    (normalizeValue v).toOption = none := by
  simp only [normalizeValue]
  cases hp : pdIsna (tsToStr v) with
  | error e => rfl
  | ok b =>
    have := pdIsna_safe_of_ok _ b hp
    rw [isnaSafe_tsToStr] at this
    rw [this] at h
    cases h

theorem tsToStr_not_ts (v : Value) : isTimestampB (tsToStr v) = false := by
  cases v <;> rfl

theorem normTotal_serializable (v : Value) : serializableB (normTotal v) = true := by
  simp only [normTotal]
  by_cases h : serializableB (if isnaB (tsToStr v) then Value.str "" else tsToStr v) = true
  · rw [if_pos h]
    exact h
  · rw [if_neg h]
    rfl

theorem normTotal_not_null_ts (v : Value) :
    normTotal v ≠ Value.null ∧ isTimestampB (normTotal v) = false := by
  simp only [normTotal]
  by_cases h1 : isnaB (tsToStr v) = true
  · rw [if_pos h1, if_pos (by rfl)]
    exact ⟨fun h => Value.noConfusion h, rfl⟩
  · rw [if_neg h1]
    by_cases h2 : serializableB (tsToStr v) = true
    · rw [if_pos h2]
      refine ⟨fun hn => ?_, tsToStr_not_ts v⟩
      rw [hn] at h1
      exact h1 rfl
    · rw [if_neg h2]
      exact ⟨fun h => Value.noConfusion h, rfl⟩

/-! ### Build-loop lemmas -/

theorem buildAux_ok_pred (row defaults : Record) (P : Value → Prop)
    (hP : ∀ v w, normalizeValue v = .ok w → P w) :
    ∀ (fs : List String) (acc doc : Record),
      buildAux row defaults fs acc = .ok doc → (∀ p ∈ acc, P p.2) →
      ∀ p ∈ doc, P p.2 := by
  intro fs
  induction fs with
  | nil =>
    intro acc doc h hacc
    simp only [buildAux] at h
    injection h with h
    subst h
    exact hacc
  | cons f fs ih =>
    intro acc doc h hacc
    simp only [buildAux] at h
    cases hn : normalizeValue (resolve row defaults f) with
    | error e => rw [hn] at h; cases h
    | ok v =>
      rw [hn] at h
      refine ih _ doc h (fun p hp => ?_)
      rcases mem_insertOrd acc f v p hp with h1 | h1
      · exact hacc p h1
      · rw [h1]
        exact hP _ v hn

theorem getVal_buildAux_not_mem (row defaults : Record) :
    ∀ (fs : List String) (acc doc : Record) (f : String),
      buildAux row defaults fs acc = .ok doc → f ∉ fs →
      getVal doc f = getVal acc f := by
  intro fs
  induction fs with
  | nil =>
    intro acc doc f h _
    simp only [buildAux] at h
    injection h with h
    subst h
    rfl
  | cons g fs ih =>
    intro acc doc f h hf
    simp only [buildAux] at h
    cases hn : normalizeValue (resolve row defaults g) with
    | error e => rw [hn] at h; cases h
    | ok v =>
      rw [hn] at h
      have hg : (g == f) = false := by
        rw [beq_eq_false_iff_ne]
        intro he
        exact hf (he ▸ List.mem_cons_self g fs)
      rw [ih _ doc f h (fun hm => hf (List.mem_cons_of_mem g hm))]
      exact getVal_insertOrd_ne acc g f v hg

theorem getVal_buildAux_mem (row defaults : Record) :
    ∀ (fs : List String) (acc doc : Record) (f : String),
      buildAux row defaults fs acc = .ok doc → f ∈ fs →
      getVal doc f = some (normTotal (resolve row defaults f)) := by
  intro fs
  induction fs with
  | nil => intro _ _ _ _ hf; cases hf
  | cons g fs ih =>
    intro acc doc f h hf
    simp only [buildAux] at h
    cases hn : normalizeValue (resolve row defaults g) with
    | error e => rw [hn] at h; cases h
    | ok v =>
      rw [hn] at h
      by_cases hffs : f ∈ fs
      · exact ih _ doc f h hffs
      · have hfg : f = g := by
          cases hf with
          | head => rfl
          | tail _ hm => exact absurd hm hffs
        subst hfg
        rw [getVal_buildAux_not_mem row defaults fs _ doc f h hffs,
          getVal_insertOrd_self]
        rw [normalizeValue_ok_eq _ v hn]

theorem keys_buildAux (row defaults : Record) :
    ∀ (fs : List String) (acc doc : Record),
      buildAux row defaults fs acc = .ok doc → fs.Nodup →
      (∀ f ∈ fs, hasKeyB acc f = false) →
      doc.map Prod.fst = acc.map Prod.fst ++ fs := by
  intro fs
  induction fs with
  | nil =>
    intro acc doc h _ _
    simp only [buildAux] at h
    injection h with h
    subst h
    simp
  | cons g fs ih =>
    intro acc doc h hnd hdisj
    simp only [buildAux] at h
    cases hn : normalizeValue (resolve row defaults g) with
    | error e => rw [hn] at h; cases h
    | ok v =>
      rw [hn] at h
      have hg : hasKeyB acc g = false := hdisj g (List.mem_cons_self g fs)
      have hins : insertOrd acc g v = acc ++ [(g, v)] := by
        unfold insertOrd
        rw [hg, if_neg (by simp)]
      have h' : buildAux row defaults fs (insertOrd acc g v) = .ok doc := h
      rw [hins] at h'
      have hnd2 := (List.nodup_cons.mp hnd).2
      have hgnotin := (List.nodup_cons.mp hnd).1
      have h2 := ih (acc ++ [(g, v)]) doc h' hnd2 (fun f hf => by
        rw [hasKeyB_append, hdisj f (List.mem_cons_of_mem g hf)]
        have : (g == f) = false := by
          rw [beq_eq_false_iff_ne]
          intro he
          exact hgnotin (he ▸ hf)
        simp [hasKeyB, this])
      rw [h2, List.map_append]
      simp

theorem buildAux_ok_of_safe (row defaults : Record) :
    ∀ (fs : List String) (acc : Record),
      (∀ f ∈ fs, isnaSafe (resolve row defaults f) = true) →
      buildAux row defaults fs acc = .ok (buildTotal row defaults fs acc) := by
  intro fs
  induction fs with
  | nil => intro acc _; rfl
  | cons g fs ih =>
    intro acc hsafe
    have hg := normalizeValue_ok_of_safe _ (hsafe g (List.mem_cons_self g fs))
    simp only [buildAux, buildTotal, hg]
    exact ih _ (fun f hf => hsafe f (List.mem_cons_of_mem g hf))

/-! ### Claim theorems: JSON document construction -/

/-- C2 counterexample: the claim quantifies over every JSON field list, but
for the duplicate list `["a", "a"]` of length 2 the built document has a
single key (Python dict assignment overwrites), not exactly 2 keys. -/
theorem claim_C2_counterexample :
    build_json [("a", Value.str "x")] ["a", "a"] [] = .ok [("a", Value.str "x")] ∧
    ([("a", Value.str "x")] : Record).length ≠ (["a", "a"] : List String).length := by
  exact ⟨rfl, by decide⟩

/-- C2 (amended): for every duplicate-free JSON field list of length N,
every defaults table, and every input record whose consulted values keep the
null-check unambiguous, the built document has exactly the N listed keys, in
exactly the field-list order (regardless of the record's own key order), and
every listed field resolves to the normalised value of
`row.get(field, defaults.get(field, ""))` — no extra keys, no missing keys. -/
theorem claim_C2_key_order (row : Record) (fields : List String) (defaults : Record)
    (hnd : fields.Nodup)
    (hsafe : ∀ f ∈ fields, isnaSafe (resolve row defaults f) = true) :
    build_json row fields defaults = .ok (buildTotal row defaults fields []) ∧
    (buildTotal row defaults fields []).map Prod.fst = fields ∧
    ∀ f ∈ fields, getVal (buildTotal row defaults fields []) f =
      some (normTotal (resolve row defaults f)) := by
  have hok : build_json row fields defaults = .ok (buildTotal row defaults fields []) :=
    buildAux_ok_of_safe row defaults fields [] hsafe
  refine ⟨hok, ?_, fun f hf => ?_⟩
  · have h := keys_buildAux row defaults fields [] _ hok hnd (fun f _ => rfl)
    simpa using h
  · exact getVal_buildAux_mem row defaults fields [] _ f hok hf

/-- Witness for C2 at the spec's scenario: fields
`["customerName", "status"]`, record `{customerName: "Acme"}` (note the
record provides only one of the two), defaults `{customerName: "Unknown",
status: "ACTIVE"}`: the document is `{"customerName": "Acme",
"status": "ACTIVE"}` with keys exactly in field-list order. -/
theorem claim_C2_key_order_witness :
    build_json [("customerName", Value.str "Acme")] ["customerName", "status"]
      [("customerName", Value.str "Unknown"), ("status", Value.str "ACTIVE")] =
      .ok [("customerName", Value.str "Acme"), ("status", Value.str "ACTIVE")] ∧
    ([("customerName", Value.str "Acme"), ("status", Value.str "ACTIVE")] : Record).map
      Prod.fst = ["customerName", "status"] := by
  have h := claim_C2_key_order [("customerName", Value.str "Acme")]
    ["customerName", "status"]
    [("customerName", Value.str "Unknown"), ("status", Value.str "ACTIVE")]
    (by decide) (by decide)
  exact ⟨h.1.trans rfl, h.2.1⟩

/-- C3 counterexample: `build_json` is not total over every value type — on
a record holding the two-element list `[1, 2]`, `pd.isna(value)` returns a
boolean array whose truth value is ambiguous, so the call raises instead of
returning a document. -/
theorem claim_C3_counterexample :
    (build_json [("f", Value.vlist (.cons (.int 1) (.cons (.int 2) .nil)))]
      ["f"] []).toOption = none := by
  rfl

/-- C3 (amended): JSON document construction is total for every input record
and every value type whose null-check is unambiguous (every scalar, dict,
and arbitrary object value — everything except multi-element or nested
sequences): `build_json` returns a document and each document value is
accepted by the serializer check, unacceptable types having been coerced to
their string representation. -/
theorem claim_C3_total_serializable (row : Record) (fields : List String)
    (defaults : Record)
    (hsafe : ∀ f ∈ fields, isnaSafe (resolve row defaults f) = true) :
    ∃ doc, build_json row fields defaults = .ok doc ∧
      ∀ p ∈ doc, serializableB p.2 = true := by
  refine ⟨buildTotal row defaults fields [],
    buildAux_ok_of_safe row defaults fields [] hsafe, ?_⟩
  exact buildAux_ok_pred row defaults (fun w => serializableB w = true)
    (fun v w hw => by rw [normalizeValue_ok_eq v w hw]; exact normTotal_serializable v)
    fields [] _ (buildAux_ok_of_safe row defaults fields [] hsafe) (by simp)

/-- Witness for C3: a record holding an arbitrary non-serializable object
(modelled with its `str()` form `Decimal('1.5')`) still yields a document,
with the value coerced to a string. -/
theorem claim_C3_total_serializable_witness :
    ∃ doc, build_json [("f", Value.other "Decimal('1.5')")] ["f"] [] = .ok doc ∧
      ∀ p ∈ doc, serializableB p.2 = true :=
  claim_C3_total_serializable [("f", Value.other "Decimal('1.5')")] ["f"] [] (by decide)

/-- C6: in a built JSON document a field whose resolved value is a
date/timestamp appears as the string `YYYY-MM-DD`; a field whose resolved
value is the missing/null marker yields exactly the empty string `""`; and
no document value is the native null marker (or a raw timestamp). -/
theorem claim_C6_dates_normalized (row : Record) (fields : List String)
    (defaults doc : Record) (hok : build_json row fields defaults = .ok doc) :
    (∀ p ∈ doc, p.2 ≠ Value.null ∧ isTimestampB p.2 = false) ∧
    (∀ f ∈ fields, resolve row defaults f = Value.null →
      getVal doc f = some (Value.str "")) ∧
    (∀ f ∈ fields, ∀ y mo d hh mi ss,
      resolve row defaults f = Value.timestamp y mo d hh mi ss →
      getVal doc f = some (Value.str (fmtDate y mo d))) := by
  refine ⟨?_, fun f hf hres => ?_, fun f hf y mo d hh mi ss hres => ?_⟩
  · exact buildAux_ok_pred row defaults
      (fun w => w ≠ Value.null ∧ isTimestampB w = false)
      (fun v w hw => by rw [normalizeValue_ok_eq v w hw]; exact normTotal_not_null_ts v)
      fields [] doc hok (by simp)
  · rw [getVal_buildAux_mem row defaults fields [] doc f hok hf, hres]
    rfl
  · rw [getVal_buildAux_mem row defaults fields [] doc f hok hf, hres]
    rfl

/-- Witness for C6: a document built from a timestamp field and a null field
holds `"2024-03-05"` for the timestamp and exactly the empty string — a
non-null value — for the null. -/
theorem claim_C6_dates_normalized_witness :
    getVal [("createdAt", Value.str "2024-03-05"), ("note", Value.str "")] "createdAt" =
      some (Value.str "2024-03-05") ∧
    getVal [("createdAt", Value.str "2024-03-05"), ("note", Value.str "")] "note" =
      some (Value.str "") ∧
    Value.str "" ≠ Value.null := by
  have h := claim_C6_dates_normalized
    [("createdAt", Value.timestamp 2024 3 5 0 0 0), ("note", Value.null)]
    ["createdAt", "note"] []
    [("createdAt", Value.str "2024-03-05"), ("note", Value.str "")] rfl
  refine ⟨?_, ?_, ?_⟩
  · exact (h.2.2 "createdAt" (by decide) 2024 3 5 0 0 0 rfl).trans rfl
  · exact h.2.1 "note" (by decide) rfl
  · exact (h.1 ("note", Value.str "") (by decide)).1

/-- C8: the category default for a field is consulted only when the field's
key is entirely absent from the record — a field present with a null value
yields the empty string in the document, never the declared default. -/
theorem claim_C8_null_not_default (row : Record) (fields : List String)
    (defaults doc : Record) (f : String)
    (hok : build_json row fields defaults = .ok doc) (hf : f ∈ fields)
    (hnull : getVal row f = some Value.null) :
    getVal doc f = some (Value.str "") := by
  rw [getVal_buildAux_mem row defaults fields [] doc f hok hf]
  unfold resolve
  rw [hnull]
  rfl

/-- Witness for C8: the record holds `dob = null` while the defaults declare
`dob = "1900-01-01"`; the document carries `""`, not the default. -/
theorem claim_C8_null_not_default_witness :
    build_json [("dob", Value.null)] ["dob"] [("dob", Value.str "1900-01-01")] =
      .ok [("dob", Value.str "")] ∧
    getVal [("dob", Value.str "")] "dob" = some (Value.str "") :=
  ⟨rfl, claim_C8_null_not_default [("dob", Value.null)] ["dob"]
    [("dob", Value.str "1900-01-01")] [("dob", Value.str "")] "dob" rfl
    (by decide) rfl⟩

/-! ### Column-map lemmas and claims C7, C9 -/

theorem normalizeDatetimeCols_eq_map (r : Record) :
    normalizeDatetimeCols r = r.map (fun p =>
      (p.1, if datetime_columns.contains p.1 then toDatetimeCoerce p.2 else p.2)) := by
  unfold normalizeDatetimeCols
  have hfn : (fun p : String × Value =>
      if datetime_columns.contains p.1 then (p.1, toDatetimeCoerce p.2) else p) =
      (fun p : String × Value =>
      (p.1, if datetime_columns.contains p.1 then toDatetimeCoerce p.2 else p.2)) := by
    funext p
    by_cases h : datetime_columns.contains p.1 = true
    · rw [if_pos h, if_pos h]
    · rw [if_neg h, if_neg h]
  rw [hfn]

theorem getVal_normalizeDatetimeCols (r : Record) (k : String) :
    getVal (normalizeDatetimeCols r) k = (getVal r k).map
      (fun v => if datetime_columns.contains k then toDatetimeCoerce v else v) := by
  rw [normalizeDatetimeCols_eq_map]
  exact getVal_map_entry
    (fun k v => if datetime_columns.contains k then toDatetimeCoerce v else v) r k

theorem astypeStrCols_eq_map (r : Record) :
    astypeStrCols r = r.map (fun p =>
      (p.1, if int_to_str_columns.contains p.1 then Value.str (pyStr p.2) else p.2)) := by
  unfold astypeStrCols
  have hfn : (fun p : String × Value =>
      if int_to_str_columns.contains p.1 then (p.1, Value.str (pyStr p.2)) else p) =
      (fun p : String × Value =>
      (p.1, if int_to_str_columns.contains p.1 then Value.str (pyStr p.2) else p.2)) := by
    funext p
    by_cases h : int_to_str_columns.contains p.1 = true
    · rw [if_pos h, if_pos h]
    · rw [if_neg h, if_neg h]
  rw [hfn]

theorem getVal_astypeStrCols (r : Record) (k : String) :
    getVal (astypeStrCols r) k = (getVal r k).map
      (fun v => if int_to_str_columns.contains k then Value.str (pyStr v) else v) := by
  rw [astypeStrCols_eq_map]
  exact getVal_map_entry
    (fun k v => if int_to_str_columns.contains k then Value.str (pyStr v) else v) r k

/-- C7: the type normalizer is total on the designated temporal columns
(`createdAt`, `updatedAt`): the coerced cell is always either a canonical
timestamp or the null-timestamp marker — never an error — and every
parseable value is converted to its canonical timestamp. -/
theorem claim_C7_datetime_total (r : Record) (k : String) (v : Value)
    (hk : datetime_columns.contains k = true) (hv : getVal r k = some v) :
    getVal (normalizeDatetimeCols r) k = some (toDatetimeCoerce v) ∧
    (isTimestampB (toDatetimeCoerce v) = true ∨ toDatetimeCoerce v = Value.null) ∧
    (∀ y mo d hh mi ss, parseDatetime v = some (y, mo, d, hh, mi, ss) →
      toDatetimeCoerce v = Value.timestamp y mo d hh mi ss) := by
  refine ⟨?_, ?_, ?_⟩
  · rw [getVal_normalizeDatetimeCols, hv, Option.map_some', if_pos hk]
  · unfold toDatetimeCoerce
    cases hp : parseDatetime v with
    | none => exact Or.inr rfl
    | some t =>
      obtain ⟨y, mo, d, hh, mi, ss⟩ := t
      exact Or.inl rfl
  · intro y mo d hh mi ss hp
    unfold toDatetimeCoerce
    rw [hp]

/-- Witness for C7: a parseable ISO string in `createdAt` becomes its
canonical timestamp and an unparseable string in `updatedAt` becomes the
null-timestamp marker, neither raising. -/
theorem claim_C7_datetime_total_witness :
    getVal (normalizeDatetimeCols [("createdAt", Value.str "2024-03-05T10:20:30"),
      ("updatedAt", Value.str "not a date")]) "createdAt" =
      some (Value.timestamp 2024 3 5 10 20 30) ∧
    getVal (normalizeDatetimeCols [("createdAt", Value.str "2024-03-05T10:20:30"),
      ("updatedAt", Value.str "not a date")]) "updatedAt" = some Value.null := by
  constructor
  · exact (claim_C7_datetime_total
      [("createdAt", Value.str "2024-03-05T10:20:30"),
        ("updatedAt", Value.str "not a date")] "createdAt"
      (Value.str "2024-03-05T10:20:30") (by decide) rfl).1.trans rfl
  · exact (claim_C7_datetime_total
      [("createdAt", Value.str "2024-03-05T10:20:30"),
        ("updatedAt", Value.str "not a date")] "updatedAt"
      (Value.str "not a date") (by decide) rfl).1.trans rfl

/-- C9: the unconditional identifier-to-string conversion on the designated
identifier columns (`customerNumber`, `bvn`) turns every cell into a string
— a missing/null cell becomes the literal text `"nan"`, never a null marker
— so after normalization no record has a null in those columns, but some may
hold the text `"nan"`. -/
theorem claim_C9_astype_str (r : Record) (k : String) (v : Value)
    (hk : int_to_str_columns.contains k = true) (hv : getVal r k = some v) :
    getVal (astypeStrCols r) k = some (Value.str (pyStr v)) ∧
    getVal (astypeStrCols r) k ≠ some Value.null ∧
    (v = Value.null → getVal (astypeStrCols r) k = some (Value.str "nan")) := by
  have h1 : getVal (astypeStrCols r) k = some (Value.str (pyStr v)) := by
    rw [getVal_astypeStrCols, hv, Option.map_some', if_pos hk]
  refine ⟨h1, ?_, fun hnull => ?_⟩
  · rw [h1]
    intro hc
    exact Value.noConfusion (Option.some.inj hc)
  · rw [h1, hnull]
    rfl

/-- Witness for C9: a null `customerNumber` becomes the text `"nan"` and an
integer `bvn` becomes its decimal string. -/
theorem claim_C9_astype_str_witness :
    getVal (astypeStrCols [("customerNumber", Value.null),
      ("bvn", Value.int 22334455)]) "customerNumber" = some (Value.str "nan") ∧
    getVal (astypeStrCols [("customerNumber", Value.null),
      ("bvn", Value.int 22334455)]) "bvn" = some (Value.str "22334455") := by
  constructor
  · exact (claim_C9_astype_str [("customerNumber", Value.null),
      ("bvn", Value.int 22334455)] "customerNumber" Value.null (by decide) rfl).2.2 rfl
  · exact (claim_C9_astype_str [("customerNumber", Value.null),
      ("bvn", Value.int 22334455)] "bvn" (Value.int 22334455)
      (by decide) rfl).1.trans rfl

/-! ### Left-join lemmas and claim C10 -/

theorem joinMatches_key_eq (key : String) (rs : List Record) (l r : Record)
    (hr : r ∈ joinMatches key rs l) : keyOf key r = keyOf key l := by
  unfold joinMatches at hr
  exact of_decide_eq_true (List.mem_filter.mp hr).2

theorem joinMatches_cases (key : String) (rs : List Record) (l : Record)
    (hu : rs.Pairwise (fun a b => keyOf key a ≠ keyOf key b)) :
    joinMatches key rs l = [] ∨ ∃ r, joinMatches key rs l = [r] := by
  have hpw : (joinMatches key rs l).Pairwise (fun a b => keyOf key a ≠ keyOf key b) :=
    hu.filter _
  cases hm : joinMatches key rs l with
  | nil => exact Or.inl rfl
  | cons a t =>
    cases t with
    | nil => exact Or.inr ⟨a, rfl⟩
    | cons b t2 =>
      rw [hm] at hpw
      have hab := (List.pairwise_cons.mp hpw).1 b (List.mem_cons_self b t2)
      have ha := joinMatches_key_eq key rs l a (by rw [hm]; exact List.mem_cons_self a _)
      have hb := joinMatches_key_eq key rs l b
        (by rw [hm]; exact List.mem_cons_of_mem a (List.mem_cons_self b t2))
      exact (hab (ha.trans hb.symm)).elim

theorem leftJoin_branch_eq (key : String) (rcols : List String) (rs : List Record)
    (l : Record)
    (h : joinMatches key rs l = [] ∨ ∃ r, joinMatches key rs l = [r]) :
    (match joinMatches key rs l with
      | [] => [l ++ nullRight key rcols]
      | ms => ms.map (fun r => l ++ stripKey key r)) = [joinRow key rcols rs l] := by
  unfold joinRow
  rcases h with h | ⟨r, h⟩ <;> simp only [h, List.map_cons, List.map_nil]

theorem leftJoin_eq_map (key : String) (rcols : List String) (ls rs : List Record)
    (hu : rs.Pairwise (fun a b => keyOf key a ≠ keyOf key b)) :
    leftJoin key rcols ls rs = ls.map (joinRow key rcols rs) := by
  induction ls with
  | nil => rfl
  | cons l t ih =>
    simp only [leftJoin, List.flatMap_cons, List.map_cons] at ih ⊢
    rw [leftJoin_branch_eq key rcols rs l (joinMatches_cases key rs l hu), ih,
      List.singleton_append]

theorem joinRow_append (key : String) (rcols : List String) (rs : List Record)
    (l : Record) : ∃ x, joinRow key rcols rs l = l ++ x := by
  unfold joinRow
  cases hm : joinMatches key rs l with
  | nil => exact ⟨nullRight key rcols, rfl⟩
  | cons r t => exact ⟨stripKey key r, rfl⟩

theorem discB_append_left (l x : Record) (s : String)
    (h : hasKeyB l "customer_type" = true) : discB (l ++ x) s = discB l s := by
  unfold discB
  rw [getVal_append, h, if_pos rfl]

theorem discB_joinRow (key : String) (rcols : List String) (rs : List Record)
    (l : Record) (s : String) (h : discB l s = true) :
    discB (joinRow key rcols rs l) s = true := by
  obtain ⟨x, hx⟩ := joinRow_append key rcols rs l
  rw [hx, discB_append_left]
  · exact h
  · rw [discB_true_iff] at h
    rw [hasKeyB_eq_isSome, h]
    rfl

/-- C10: with `customer_code` unique in the identifier table, the left join
keeps every staging record exactly once — the output has exactly one row per
staging row, in order; a staging row with no matching identifier is retained
with null identifier columns rather than dropped; and a retained row with a
recognized category lands in its category's partition. -/
theorem claim_C10_left_join (key : String) (rcols : List String) (ls rs : List Record)
    (hu : rs.Pairwise (fun a b => keyOf key a ≠ keyOf key b)) :
    (leftJoin key rcols ls rs).length = ls.length ∧
    (∀ i : Nat, (leftJoin key rcols ls rs)[i]? = (ls[i]?).map (joinRow key rcols rs)) ∧
    (∀ l, joinMatches key rs l = [] → ∀ c, c ∈ rcols → (c == key) = false →
      hasKeyB l c = false → getVal (joinRow key rcols rs l) c = some Value.null) ∧
    (∀ l ∈ ls, discB l "Individual" = true →
      joinRow key rcols rs l ∈ indPartition (leftJoin key rcols ls rs)) ∧
    (∀ l ∈ ls, discB l "SME" = true →
      joinRow key rcols rs l ∈ corpPartition (leftJoin key rcols ls rs)) := by
  refine ⟨?_, fun i => ?_, fun l hm c hc hck hl => ?_, fun l hl hd => ?_, fun l hl hd => ?_⟩
  · rw [leftJoin_eq_map key rcols ls rs hu, List.length_map]
  · rw [leftJoin_eq_map key rcols ls rs hu, List.getElem?_map]
  · have hrow : joinRow key rcols rs l = l ++ nullRight key rcols := by
      unfold joinRow
      rw [hm]
    rw [hrow, getVal_append, hl, if_neg (by simp)]
    exact getVal_map_pair_mem _ _ c (List.mem_filter.mpr ⟨hc, by rw [hck]; rfl⟩)
  · rw [leftJoin_eq_map key rcols ls rs hu]
    exact List.mem_filter.mpr
      ⟨List.mem_map_of_mem _ hl, discB_joinRow key rcols rs l _ hd⟩
  · rw [leftJoin_eq_map key rcols ls rs hu]
    exact List.mem_filter.mpr
      ⟨List.mem_map_of_mem _ hl, discB_joinRow key rcols rs l _ hd⟩

/-- Witness for C10: a two-row staging batch (one Individual matching the
single identifier row, one SME with no match) joins to exactly two rows; the
unmatched SME row keeps a null `customer_id` and still lands in the
Corporate partition input. -/
theorem claim_C10_left_join_witness :
    (leftJoin "customer_code" ["customer_code", "customer_id"]
      [[("customer_code", Value.str "C1"), ("customer_type", Value.str "Individual")],
        [("customer_code", Value.str "C9"), ("customer_type", Value.str "SME")]]
      [[("customer_code", Value.str "C1"), ("customer_id", Value.str "uuid-1")]]).length = 2 ∧
    getVal (joinRow "customer_code" ["customer_code", "customer_id"]
      [[("customer_code", Value.str "C1"), ("customer_id", Value.str "uuid-1")]]
      [("customer_code", Value.str "C9"), ("customer_type", Value.str "SME")])
      "customer_id" = some Value.null ∧
    joinRow "customer_code" ["customer_code", "customer_id"]
      [[("customer_code", Value.str "C1"), ("customer_id", Value.str "uuid-1")]]
      [("customer_code", Value.str "C1"), ("customer_type", Value.str "Individual")] ∈
      indPartition (leftJoin "customer_code" ["customer_code", "customer_id"]
        [[("customer_code", Value.str "C1"), ("customer_type", Value.str "Individual")],
          [("customer_code", Value.str "C9"), ("customer_type", Value.str "SME")]]
        [[("customer_code", Value.str "C1"), ("customer_id", Value.str "uuid-1")]]) := by
  have h := claim_C10_left_join "customer_code" ["customer_code", "customer_id"]
    [[("customer_code", Value.str "C1"), ("customer_type", Value.str "Individual")],
      [("customer_code", Value.str "C9"), ("customer_type", Value.str "SME")]]
    [[("customer_code", Value.str "C1"), ("customer_id", Value.str "uuid-1")]]
    (by simp)
  refine ⟨h.1, ?_, ?_⟩
  · exact h.2.2.1 [("customer_code", Value.str "C9"), ("customer_type", Value.str "SME")]
      rfl "customer_id" (by decide) (by decide) (by decide)
  · exact h.2.2.2.1
      [("customer_code", Value.str "C1"), ("customer_type", Value.str "Individual")]
      (by decide) (by decide)

end Migration
